import Mathlib

/-!
Verification of the easy-web-summarizer extraction/summarization pipeline.

The Python sources `app/summarizer.py` and `app/web_summarizer_api.py` are
embedded shallowly: strings become `List Char` (one entry per Unicode code
point, matching Python `len`/slicing semantics), fallible code returns
`Option`/`Except`, and the two network-facing extraction loaders plus the
LLM backend are passed in as explicit oracle values describing what the
external world returned on this call.
-/

/-- Characters collapsed by the clamping regex `[ \t]+\n`: space and tab. -/
def isST (c : Char) : Prop := c = ' ' ∨ c = '\t'

instance (c : Char) : Decidable (isST c) := by
  unfold isST; infer_instance

/-- ASCII whitespace stripped by Python `str.strip()` (and matched by `\s`). -/
def pyWS (c : Char) : Bool :=
  c = ' ' || c = '\t' || c = '\n' || c = '\r' || c = '\x0b' || c = '\x0c'

/-- Python `str.strip()`: drop leading and trailing whitespace. -/
def pyStrip (l : List Char) : List Char :=
  ((l.dropWhile pyWS).reverse.dropWhile pyWS).reverse

/-- Whitespace normalization done first by both `clamp_text` variants:
`re.sub(r"[ \t]+\n", "\n", t)`, i.e. every run of spaces/tabs immediately
preceding a newline is deleted.  Processing from the right: a space/tab is
dropped exactly when the already-normalized remainder starts with `\n`. -/
def normalize_trailing_ws : List Char → List Char
  | [] => []
  | c :: r =>
    let n := normalize_trailing_ws r
    if isST c ∧ n.head? = some '\n' then n else c :: n

namespace Summarizer

/-- The `clamp_text` of `app/summarizer.py` (lines 80-87): normalize
trailing whitespace, return unchanged when within budget, otherwise
first 2000 chars + "\n……\n" + last 1000 chars. -/
def clamp_text (t : List Char) (max_chars : Nat := 4000) : List Char :=
  let t := normalize_trailing_ws t
  if t.length ≤ max_chars then t
  else t.take 2000 ++ ("\n……\n").data ++ t.drop (t.length - 1000)

end Summarizer

namespace WebApi

/-- The `clamp_text` of `app/web_summarizer_api.py` (lines 115-122); the
source text is character-for-character the same as the one in
`app/summarizer.py`. -/
def clamp_text (t : List Char) (max_chars : Nat := 4000) : List Char :=
  let t := normalize_trailing_ws t
  if t.length ≤ max_chars then t
  else t.take 2000 ++ ("\n……\n").data ++ t.drop (t.length - 1000)

end WebApi

/-! ### Declarative characterization of the whitespace normalization

`re.sub(r"[ \t]+\n", "\n", t)` deletes, from every line that is followed by
a newline, its trailing run of spaces/tabs.  We state that as: split the
text on `\n`, strip trailing spaces/tabs from every segment except the
last (the last segment is not followed by a newline), and re-join. -/

/-- Strip the trailing run of spaces/tabs from one line. -/
def stripST (l : List Char) : List Char :=
  (l.reverse.dropWhile (fun c => decide (isST c))).reverse

/-- Split a text on `\n` (always returns at least one segment). -/
def splitNl : List Char → List (List Char)
  | [] => [[]]
  | c :: r =>
    if c = '\n' then [] :: splitNl r
    else
      match splitNl r with
      | [] => [[c]]
      | h :: tl => (c :: h) :: tl

/-- Re-join segments with `\n`. -/
def joinNl : List (List Char) → List Char
  | [] => []
  | [l] => l
  | l :: ls => l ++ '\n' :: joinNl ls

/-- Map a function over every element except the last. -/
def mapInit (f : List Char → List Char) : List (List Char) → List (List Char)
  | [] => []
  | [l] => [l]
  | l :: ls => f l :: mapInit f ls

/-- The spec-side description of the normalization: collapse the run of
spaces/tabs at the end of every newline-terminated line. -/
def normSpec (t : List Char) : List Char :=
  joinNl (mapInit stripST (splitNl t))

/-- Does the text begin with a (possibly empty) run of spaces/tabs followed
by a newline?  Exactly in this case the normalized text begins with `\n`. -/
def leadsToNl : List Char → Bool
  | [] => false
  | c :: r => if c = '\n' then true else if isST c then leadsToNl r else false

theorem not_isST_nl : ¬ isST '\n' := by decide

theorem splitNl_ne_nil (t : List Char) : splitNl t ≠ [] := by
  cases t with
  | nil => simp [splitNl]
  | cons c r =>
    by_cases h : c = '\n' <;> simp only [splitNl, h, if_true, if_false] <;> simp_all
    cases hs : splitNl r <;> simp

theorem mapInit_ne_nil (f : List Char → List Char) (l : List (List Char)) (h : l ≠ []) :
    mapInit f l ≠ [] := by
  cases l with
  | nil => exact absurd rfl h
  | cons a tl => cases tl <;> simp [mapInit]

theorem mapInit_cons (f : List Char → List Char) (a : List Char) (l : List (List Char))
    (h : l ≠ []) : mapInit f (a :: l) = f a :: mapInit f l := by
  cases l with
  | nil => exact absurd rfl h
  | cons b tl => rfl

theorem joinNl_cons (a : List Char) (l : List (List Char)) (h : l ≠ []) :
    joinNl (a :: l) = a ++ '\n' :: joinNl l := by
  cases l with
  | nil => exact absurd rfl h
  | cons b tl => rfl

theorem dropWhile_append_all {p : Char → Bool} {l₁ l₂ : List Char}
    (h : ∀ x ∈ l₁, p x = true) :
    (l₁ ++ l₂).dropWhile p = l₂.dropWhile p := by
  induction l₁ with
  | nil => rfl
  | cons a t ih =>
    have ha : p a = true := h a (List.mem_cons_self a t)
    simp only [List.cons_append, List.dropWhile_cons, ha, if_true]
    exact ih fun x hx => h x (List.mem_cons_of_mem a hx)

theorem dropWhile_append_ne {p : Char → Bool} {l₁ l₂ : List Char}
    (h : l₁.dropWhile p ≠ []) :
    (l₁ ++ l₂).dropWhile p = l₁.dropWhile p ++ l₂ := by
  induction l₁ with
  | nil => exact absurd rfl h
  | cons a t ih =>
    by_cases ha : p a = true
    · simp only [List.dropWhile_cons, ha, if_true] at h ⊢
      simp only [List.cons_append, List.dropWhile_cons, ha, if_true]
      exact ih h
    · have ha' : p a = false := by revert ha; cases p a <;> simp
      simp only [List.cons_append, List.dropWhile_cons, ha', Bool.false_eq_true, if_false]

/-- `stripST` on a cons: the head survives unless it is a space/tab and the
whole tail strips away. -/
theorem stripST_cons (c : Char) (h : List Char) :
    stripST (c :: h) =
      if isST c ∧ stripST h = [] then [] else c :: stripST h := by
  unfold stripST
  by_cases hall : (h.reverse.dropWhile (fun c => decide (isST c))) = []
  · have hmem : ∀ x ∈ h.reverse, (fun c => decide (isST c)) x = true :=
      List.dropWhile_eq_nil_iff.mp hall
    simp only [List.reverse_cons]
    rw [dropWhile_append_all hmem]
    by_cases hc : isST c
    · simp [List.dropWhile, hc, hall]
    · simp [List.dropWhile, hc, hall]
  · rw [List.reverse_cons, dropWhile_append_ne hall]
    simp only [List.reverse_append, List.reverse_cons, List.reverse_nil, List.nil_append]
    have : ¬ ((h.reverse.dropWhile (fun c => decide (isST c))).reverse = []) := by
      intro hh
      exact hall (by simpa using congrArg List.reverse hh)
    simp [this]

/-- `stripST` erases everything iff every character is a space/tab. -/
theorem stripST_eq_nil_iff (l : List Char) :
    stripST l = [] ↔ ∀ x ∈ l, isST x := by
  unfold stripST
  constructor
  · intro h x hx
    have : l.reverse.dropWhile (fun c => decide (isST c)) = [] := by
      have := congrArg List.reverse h
      simpa using this
    have hmem := List.dropWhile_eq_nil_iff.mp this x (by simpa using hx)
    simpa using hmem
  · intro h
    have : l.reverse.dropWhile (fun c => decide (isST c)) = [] :=
      List.dropWhile_eq_nil_iff.mpr fun x hx => by
        simpa using h x (by simpa using hx)
    simp [this]

/-- `leadsToNl` in terms of the first segment of the split. -/
theorem leadsToNl_iff_split (r : List Char) :
    leadsToNl r = true ↔
      ∃ h tl, splitNl r = h :: tl ∧ tl ≠ [] ∧ stripST h = [] := by
  induction r with
  | nil =>
    constructor
    · intro h; cases h
    · rintro ⟨h, tl, heq, htl, _⟩
      simp only [splitNl] at heq
      cases heq
      exact absurd rfl htl
  | cons c r ih =>
    by_cases hc : c = '\n'
    · subst hc
      constructor
      · intro _
        refine ⟨[], splitNl r, by simp [splitNl], splitNl_ne_nil r, ?_⟩
        simp [stripST]
      · intro _
        simp [leadsToNl]
    · obtain ⟨h, tl, hsplit⟩ : ∃ h tl, splitNl r = h :: tl := by
        cases hs : splitNl r with
        | nil => exact absurd hs (splitNl_ne_nil r)
        | cons a b => exact ⟨a, b, rfl⟩
      have h1 : splitNl (c :: r) = (c :: h) :: tl := by
        simp only [splitNl, if_neg hc, hsplit]
      by_cases hst : isST c
      · have hL : leadsToNl (c :: r) = leadsToNl r := by simp [leadsToNl, hc, hst]
        rw [hL, ih]
        constructor
        · rintro ⟨h', tl', heq, htl', hstrip⟩
          rw [hsplit] at heq
          cases heq
          exact ⟨c :: h, tl, h1, htl', by rw [stripST_cons, if_pos ⟨hst, hstrip⟩]⟩
        · rintro ⟨h', tl', heq, htl', hstrip⟩
          rw [h1] at heq
          cases heq
          rw [stripST_cons] at hstrip
          by_cases hh : stripST h = []
          · exact ⟨h, tl, hsplit, htl', hh⟩
          · rw [if_neg (fun hand => hh hand.2)] at hstrip
            simp at hstrip
      · have hL : leadsToNl (c :: r) = false := by simp [leadsToNl, hc, hst]
        rw [hL]
        constructor
        · intro h; cases h
        · rintro ⟨h', tl', heq, htl', hstrip⟩
          rw [h1] at heq
          cases heq
          rw [stripST_cons, if_neg (fun hand => hst hand.1)] at hstrip
          simp at hstrip

/-- Unfolding of the spec-side normalization on a cons. -/
theorem normSpec_cons (c : Char) (r : List Char) :
    normSpec (c :: r) =
      if c = '\n' then '\n' :: normSpec r
      else if isST c ∧ leadsToNl r = true then normSpec r
      else c :: normSpec r := by
  obtain ⟨h, tl, hsplit⟩ : ∃ h tl, splitNl r = h :: tl := by
    cases hs : splitNl r with
    | nil => exact absurd hs (splitNl_ne_nil r)
    | cons a b => exact ⟨a, b, rfl⟩
  by_cases hc : c = '\n'
  · subst hc
    rw [if_pos rfl]
    unfold normSpec
    have h1 : splitNl ('\n' :: r) = [] :: splitNl r := by simp [splitNl]
    rw [h1, hsplit]
    rw [mapInit_cons stripST [] (h :: tl) (by simp)]
    rw [joinNl_cons _ _ (mapInit_ne_nil stripST (h :: tl) (by simp))]
    have h2 : stripST [] = [] := by simp [stripST]
    rw [h2, List.nil_append]
  · rw [if_neg hc]
    unfold normSpec
    have h1 : splitNl (c :: r) = (c :: h) :: tl := by
      simp only [splitNl, if_neg hc, hsplit]
    rw [h1, hsplit]
    cases tl with
    | nil =>
      have hlead : ¬ (isST c ∧ leadsToNl r = true) := by
        rintro ⟨_, hl⟩
        obtain ⟨h', tl', heq, htl', _⟩ := (leadsToNl_iff_split r).mp hl
        rw [hsplit] at heq
        cases heq
        exact htl' rfl
      rw [if_neg hlead]
      simp [mapInit, joinNl]
    | cons t2 ts =>
      rw [mapInit_cons stripST (c :: h) (t2 :: ts) (by simp)]
      rw [mapInit_cons stripST h (t2 :: ts) (by simp)]
      rw [joinNl_cons _ _ (mapInit_ne_nil stripST (t2 :: ts) (by simp))]
      rw [joinNl_cons _ _ (mapInit_ne_nil stripST (t2 :: ts) (by simp))]
      rw [stripST_cons]
      by_cases hdrop : isST c ∧ stripST h = []
      · have hlead : leadsToNl r = true :=
          (leadsToNl_iff_split r).mpr ⟨h, t2 :: ts, hsplit, by simp, hdrop.2⟩
        rw [if_pos hdrop, if_pos ⟨hdrop.1, hlead⟩, hdrop.2]
      · rw [if_neg hdrop]
        have hres : ¬ (isST c ∧ leadsToNl r = true) := by
          rintro ⟨hst', hl⟩
          obtain ⟨h', tl', heq, _, hstrip⟩ := (leadsToNl_iff_split r).mp hl
          rw [hsplit] at heq
          cases heq
          exact hdrop ⟨hst', hstrip⟩
        rw [if_neg hres]
        simp

/-- The recursive normalization used by `clamp_text` starts with `\n`
exactly when the input is a run of spaces/tabs followed by `\n`. -/
theorem normalize_head_nl (r : List Char) :
    (normalize_trailing_ws r).head? = some '\n' ↔ leadsToNl r = true := by
  induction r with
  | nil => simp [normalize_trailing_ws, leadsToNl]
  | cons c r ih =>
    by_cases hc : c = '\n'
    · subst hc
      simp only [normalize_trailing_ws]
      rw [if_neg (fun hand => not_isST_nl hand.1)]
      simp [leadsToNl]
    · by_cases hst : isST c
      · simp only [normalize_trailing_ws]
        have hL : leadsToNl (c :: r) = leadsToNl r := by simp [leadsToNl, hc, hst]
        by_cases hh : (normalize_trailing_ws r).head? = some '\n'
        · rw [if_pos ⟨hst, hh⟩, hL]
          exact ⟨fun _ => ih.mp hh, fun _ => hh⟩
        · rw [if_neg (fun hand => hh hand.2), hL]
          constructor
          · intro hhead
            simp only [List.head?] at hhead
            exact absurd (Option.some.inj hhead) hc
          · intro hlead
            exact absurd (ih.mpr hlead) hh
      · simp only [normalize_trailing_ws]
        rw [if_neg (fun hand => hst hand.1)]
        have hL : leadsToNl (c :: r) = false := by simp [leadsToNl, hc, hst]
        rw [hL]
        constructor
        · intro hhead
          simp only [List.head?] at hhead
          exact absurd (Option.some.inj hhead) hc
        · intro h; cases h

/-- The whitespace normalization performed by `clamp_text` collapses every
run of spaces/tabs that immediately precedes a newline, i.e. it strips the
trailing spaces/tabs of every newline-terminated line. -/
theorem normalize_eq_normSpec (t : List Char) :
    normalize_trailing_ws t = normSpec t := by
  induction t with
  | nil => simp [normalize_trailing_ws, normSpec, splitNl, mapInit, joinNl]
  | cons c r ih =>
    rw [normSpec_cons]
    by_cases hc : c = '\n'
    · subst hc
      rw [if_pos rfl]
      simp only [normalize_trailing_ws]
      rw [if_neg (fun hand => not_isST_nl hand.1), ih]
    · rw [if_neg hc]
      simp only [normalize_trailing_ws]
      by_cases hst : isST c
      · by_cases hh : (normalize_trailing_ws r).head? = some '\n'
        · rw [if_pos ⟨hst, hh⟩, if_pos ⟨hst, (normalize_head_nl r).mp hh⟩, ih]
        · rw [if_neg (fun hand => hh hand.2)]
          rw [if_neg (fun hand => hh ((normalize_head_nl r).mpr hand.2))]
          rw [ih]
      · rw [if_neg (fun hand => hst hand.1)]
        rw [if_neg (fun hand => hst hand.1)]
        rw [ih]

/-! ### JSON values and a model of Python `json.loads`

Parsed JSON payloads (the `obj` returned by `json.loads` and consumed by
`parsed.get(...)` / `SummOut(**obj)`).  Numbers keep their raw lexeme: the
pipeline never does arithmetic on them, it only type-checks fields. -/

inductive JVal where
  | jnull : JVal
  | jbool : Bool → JVal
  | jnum : List Char → JVal
  | jstr : List Char → JVal
  | jarr : List JVal → JVal
  | jobj : List (List Char × JVal) → JVal

/-- JSON inter-token whitespace accepted by `json.loads`. -/
def jsonWS (c : Char) : Bool := c = ' ' || c = '\t' || c = '\n' || c = '\r'

def hexDigit (c : Char) : Option Nat :=
  if '0' ≤ c ∧ c ≤ '9' then some (c.toNat - 48)
  else if 'a' ≤ c ∧ c ≤ 'f' then some (c.toNat - 87)
  else if 'A' ≤ c ∧ c ≤ 'F' then some (c.toNat - 55)
  else none

/-- Parse the body of a JSON string literal (the opening quote already
consumed), returning the decoded characters and the rest of the input.
Surrogate pairs in `\uXXXX` escapes are not recombined (each escape decodes
to one scalar); the pipeline never feeds surrogate escapes. -/
def parseStrAux : List Char → Option (List Char × List Char)
  | [] => none
  | c :: r =>
    if c = '"' then some ([], r)
    else if c = '\\' then
      match r with
      | [] => none
      | e :: r2 =>
        if e = '"' then (parseStrAux r2).map (fun p => ('"' :: p.1, p.2))
        else if e = '\\' then (parseStrAux r2).map (fun p => ('\\' :: p.1, p.2))
        else if e = '/' then (parseStrAux r2).map (fun p => ('/' :: p.1, p.2))
        else if e = 'b' then (parseStrAux r2).map (fun p => ('\x08' :: p.1, p.2))
        else if e = 'f' then (parseStrAux r2).map (fun p => ('\x0c' :: p.1, p.2))
        else if e = 'n' then (parseStrAux r2).map (fun p => ('\n' :: p.1, p.2))
        else if e = 'r' then (parseStrAux r2).map (fun p => ('\r' :: p.1, p.2))
        else if e = 't' then (parseStrAux r2).map (fun p => ('\t' :: p.1, p.2))
        else if e = 'u' then
          match r2 with
          | h1 :: h2 :: h3 :: h4 :: r3 =>
            match hexDigit h1, hexDigit h2, hexDigit h3, hexDigit h4 with
            | some a, some b, some c2, some d =>
              (parseStrAux r3).map
                (fun p => (Char.ofNat (((a * 16 + b) * 16 + c2) * 16 + d) :: p.1, p.2))
            | _, _, _, _ => none
          | _ => none
        else none
    else if c.toNat < 32 then none
    else (parseStrAux r).map (fun p => (c :: p.1, p.2))

def jsonDigits (cs : List Char) : List Char × List Char :=
  (cs.takeWhile Char.isDigit, cs.dropWhile Char.isDigit)

def parseIntPart : List Char → Option (List Char × List Char)
  | [] => none
  | c :: r =>
    if c = '0' then some ([c], r)
    else if c.isDigit then
      let p := jsonDigits r
      some (c :: p.1, p.2)
    else none

def parseFracPart (cs : List Char) : Option (List Char × List Char) :=
  match cs with
  | '.' :: r =>
    let p := jsonDigits r
    if p.1 = [] then none else some ('.' :: p.1, p.2)
  | _ => some ([], cs)

def parseExpPart (cs : List Char) : Option (List Char × List Char) :=
  match cs with
  | [] => some ([], [])
  | e :: r =>
    if e = 'e' ∨ e = 'E' then
      let sg : List Char × List Char :=
        match r with
        | s :: r2 => if s = '+' ∨ s = '-' then ([s], r2) else ([], r)
        | [] => ([], r)
      let p := jsonDigits sg.2
      if p.1 = [] then none else some (e :: (sg.1 ++ p.1), p.2)
    else some ([], cs)

/-- Parse a JSON number (Python `json.loads` additionally accepts the
non-standard `NaN`, `Infinity` and `-Infinity`). -/
def parseNum (cs : List Char) : Option (JVal × List Char) :=
  match cs with
  | 'N' :: 'a' :: 'N' :: r => some (.jnum ['N', 'a', 'N'], r)
  | 'I' :: 'n' :: 'f' :: 'i' :: 'n' :: 'i' :: 't' :: 'y' :: r =>
    some (.jnum ("Infinity").data, r)
  | '-' :: 'I' :: 'n' :: 'f' :: 'i' :: 'n' :: 'i' :: 't' :: 'y' :: r =>
    some (.jnum ("-Infinity").data, r)
  | _ =>
    let sp : List Char × List Char :=
      match cs with
      | '-' :: r => (['-'], r)
      | _ => ([], cs)
    match parseIntPart sp.2 with
    | none => none
    | some (ip, r1) =>
      match parseFracPart r1 with
      | none => none
      | some (fp, r2) =>
        match parseExpPart r2 with
        | none => none
        | some (ep, r3) => some (.jnum (sp.1 ++ ip ++ fp ++ ep), r3)

mutual

/-- Recursive-descent JSON value parser; `fuel` strictly decreases on every
recursive call and `input length + 1` is always enough, since at least one
character is consumed between consecutive calls. -/
def parseVal : Nat → List Char → Option (JVal × List Char)
  | 0, _ => none
  | fuel + 1, cs =>
    match cs.dropWhile jsonWS with
    | 'n' :: 'u' :: 'l' :: 'l' :: r => some (.jnull, r)
    | 't' :: 'r' :: 'u' :: 'e' :: r => some (.jbool true, r)
    | 'f' :: 'a' :: 'l' :: 's' :: 'e' :: r => some (.jbool false, r)
    | '"' :: r =>
      match parseStrAux r with
      | some (s, rest) => some (.jstr s, rest)
      | none => none
    | '[' :: r =>
      match r.dropWhile jsonWS with
      | ']' :: rest => some (.jarr [], rest)
      | _ =>
        match parseVal fuel r with
        | some (v, rest) => parseArrRest fuel [v] rest
        | none => none
    | '\x7b' :: r =>
      match r.dropWhile jsonWS with
      | '\x7d' :: rest => some (.jobj [], rest)
      | '"' :: r2 =>
        match parseStrAux r2 with
        | some (k, r3) =>
          match r3.dropWhile jsonWS with
          | ':' :: r4 =>
            match parseVal fuel r4 with
            | some (v, r5) => parseObjRest fuel [(k, v)] r5
            | none => none
          | _ => none
        | none => none
      | _ => none
    | rest => parseNum rest

def parseArrRest : Nat → List JVal → List Char → Option (JVal × List Char)
  | 0, _, _ => none
  | fuel + 1, acc, cs =>
    match cs.dropWhile jsonWS with
    | ',' :: r =>
      match parseVal fuel r with
      | some (v, rest) => parseArrRest fuel (acc ++ [v]) rest
      | none => none
    | ']' :: rest => some (.jarr acc, rest)
    | _ => none

def parseObjRest : Nat → List (List Char × JVal) → List Char → Option (JVal × List Char)
  | 0, _, _ => none
  | fuel + 1, acc, cs =>
    match cs.dropWhile jsonWS with
    | ',' :: r =>
      match r.dropWhile jsonWS with
      | '"' :: r2 =>
        match parseStrAux r2 with
        | some (k, r3) =>
          match r3.dropWhile jsonWS with
          | ':' :: r4 =>
            match parseVal fuel r4 with
            | some (v, r5) => parseObjRest fuel (acc ++ [(k, v)]) r5
            | none => none
          | _ => none
        | none => none
      | _ => none
    | '\x7d' :: rest => some (.jobj acc, rest)
    | _ => none

end

/-- Python `json.loads`: parse one value and require only whitespace after
it.  `none` models a raised `json.JSONDecodeError`. -/
def json_loads (s : List Char) : Option JVal :=
  match parseVal (s.length + 1) s with
  | some (v, rest) => if rest.dropWhile jsonWS = [] then some v else none
  | none => none

/-- Field lookup in a parsed object.  `json.loads` builds a `dict`, so a
repeated key keeps its last value. -/
def lookupLast (fs : List (List Char × JVal)) (k : List Char) : Option JVal :=
  match fs with
  | [] => none
  | (k', v) :: rest =>
    match lookupLast rest k with
    | some w => some w
    | none => if k' = k then some v else none

/-- Is the raw lexeme of a JSON number the number zero (every mantissa digit
is 0)?  Used for Python truthiness. -/
def isZeroNum (raw : List Char) : Bool :=
  let noSign : List Char :=
    match raw with
    | '-' :: r => r
    | _ => raw
  let mantissa := noSign.takeWhile (fun c => decide (c ≠ 'e' ∧ c ≠ 'E'))
  mantissa.all (fun c => decide (c = '0' ∨ c = '.'))

/-- Python truthiness of a decoded JSON value. -/
def jTruthy : JVal → Bool
  | .jnull => false
  | .jbool b => b
  | .jnum raw => !(isZeroNum raw)
  | .jstr s => !s.isEmpty
  | .jarr xs => !xs.isEmpty
  | .jobj fs => !fs.isEmpty

/-- Python `x or ""` on an optional decoded value (`None` for a missing
key). -/
def pyOrEmpty (v : Option JVal) : JVal :=
  match v with
  | none => .jstr []
  | some w => if jTruthy w then w else .jstr []

/-- Python `(x or "").strip()`.  `none` models the `AttributeError` raised
when `x` is truthy but not a string. -/
def pyOrEmptyStrip (v : Option JVal) : Option (List Char) :=
  match v with
  | none => some []
  | some w =>
    if jTruthy w then
      match w with
      | .jstr s => some (pyStrip s)
      | _ => none
    else some []

/-- Require every element of a JSON array to be a string (pydantic
`List[str]` in strict-ish v2 semantics: no int/bool coercion). -/
def asStrings : List JVal → Option (List (List Char))
  | [] => some []
  | .jstr s :: rest => (asStrings rest).map (fun ts => s :: ts)
  | _ => none

/-- The validated output schema of `app/web_summarizer_api.py` (lines
56-58): `summary` a string of length 40..500, `tags` a list of 3..8
strings. -/
structure SummOut where
  summary : List Char
  tags : List (List Char)

/-- `SummOut(**obj)`: pydantic construction/validation.  `none` models a
raised `ValidationError`. -/
def SummOut.model_validate (v : JVal) : Option SummOut :=
  match v with
  | .jobj fs =>
    match lookupLast fs ("summary").data, lookupLast fs ("tags").data with
    | some (.jstr s), some (.jarr xs) =>
      match asStrings xs with
      | some ts =>
        if 40 ≤ s.length ∧ s.length ≤ 500 ∧ 3 ≤ ts.length ∧ ts.length ≤ 8 then
          some ⟨s, ts⟩
        else none
      | none => none
    | _, _ => none
  | _ => none

/-! ### Model of the fence-stripping substitution

Both `parse_json_safely` variants run, on the stripped raw text `s`,
`re.sub` with the MULTILINE+IGNORECASE pattern consisting of two
alternatives: (A) at a line start, three backticks optionally followed by a
case-insensitive `json` tag and then a greedy whitespace run; (B) a greedy
whitespace run followed by three backticks at a line end.  `re.sub` scans
left to right, tries alternative A before B at each position, replaces each
match with the empty string and resumes after it. -/

/-- Match three backticks, returning the remainder. -/
def matchFence : List Char → Option (List Char)
  | b1 :: b2 :: b3 :: r =>
    if b1 = '\x60' ∧ b2 = '\x60' ∧ b3 = '\x60' then some r else none
  | _ => none

/-- Consume an optional case-insensitive `json` tag. -/
def matchJsonTag (cs : List Char) : List Char :=
  match cs with
  | j :: s2 :: o :: n :: r =>
    if j.toLower = 'j' ∧ s2.toLower = 's' ∧ o.toLower = 'o' ∧ n.toLower = 'n' then r
    else cs
  | _ => cs

/-- Alternative A of the fence pattern (caller guarantees the position is a
line start): fence, optional tag, greedy whitespace.  Returns whether the
position after the match is a line start, and the remainder. -/
def tryMatchA (cs : List Char) : Option (Bool × List Char) :=
  match matchFence cs with
  | none => none
  | some r1 =>
    let r2 := matchJsonTag r1
    some (decide ((r2.takeWhile pyWS).getLast? = some '\n'), r2.dropWhile pyWS)

/-- Alternative B of the fence pattern: greedy whitespace run, fence, line
end.  The regex `$` (MULTILINE) matches before a newline or at the end, and
does not consume the newline. -/
def tryMatchB (cs : List Char) : Option (Bool × List Char) :=
  match matchFence (cs.dropWhile pyWS) with
  | none => none
  | some r =>
    match r with
    | [] => some (false, [])
    | c :: _ => if c = '\n' then some (false, r) else none

def tryMatchFence (atStart : Bool) (cs : List Char) : Option (Bool × List Char) :=
  match (if atStart then tryMatchA cs else none) with
  | some res => some res
  | none => tryMatchB cs

/-- One left-to-right `re.sub` pass.  Every match consumes at least three
characters and every non-match step copies one, so fuel `length + 1` always
suffices. -/
def fenceSubAux : Nat → Bool → List Char → List Char
  | 0, _, cs => cs
  | fuel + 1, atStart, cs =>
    match tryMatchFence atStart cs with
    | some (newStart, rest) => fenceSubAux fuel newStart rest
    | none =>
      match cs with
      | [] => []
      | c :: r => c :: fenceSubAux fuel (decide (c = '\n')) r

/-- The `re.sub(r"^```(?:json)?\s*|\s*```$", "", s, flags=I|M)` call of both
`parse_json_safely` variants (backticks written here as words). -/
def fenceSub (cs : List Char) : List Char :=
  fenceSubAux (cs.length + 1) true cs

/-- The `re.search(r"\{.*\}", s, re.DOTALL)` step: with a greedy dot that
matches newlines, the leftmost match runs from the first opening brace to
the last closing brace, provided some closing brace follows the first
opening brace. -/
def extract_json_span (cs : List Char) : Option (List Char) :=
  match cs.findIdx? (fun c => decide (c = '\x7b')),
        cs.reverse.findIdx? (fun c => decide (c = '\x7d')) with
  | some i, some jr =>
    let j := cs.length - 1 - jr
    if i < j then some ((cs.drop i).take (j - i + 1)) else none
  | _, _ => none

/-- The shared parsing core of both `parse_json_safely` variants
(`app/summarizer.py` lines 127-141 and `app/web_summarizer_api.py` lines
170-184): strip, remove code fences, locate the brace span, decode it.
`none` models the raised `ValueError` / `json.JSONDecodeError`. -/
def extract_json_obj (s : List Char) : Option JVal :=
  match extract_json_span (fenceSub (pyStrip s)) with
  | none => none
  | some span => json_loads span

namespace Summarizer

/-- `parse_json_safely` of `app/summarizer.py`: returns the decoded object
without schema validation. -/
def parse_json_safely (s : List Char) : Option JVal :=
  extract_json_obj s

end Summarizer

namespace WebApi

/-- `parse_json_safely` of `app/web_summarizer_api.py`: decode, then
validate through `SummOut(**obj)`. -/
def parse_json_safely (s : List Char) : Option SummOut :=
  match extract_json_obj s with
  | none => none
  | some v => SummOut.model_validate v

end WebApi

/-! ### Model of `load_clean_article`

The three loaders touch the network; each call's outcome is provided as an
oracle value in `ExtractEnv`.  `Except` errors carry the message of the
exception that `load_clean_article` lets escape. -/

/-- One document returned by a LangChain loader: `metadata.get("title")`
(absent key = `none`) and `page_content` (always a string for these
loaders). -/
structure PageDoc where
  metaTitle : Option JVal
  page_content : List Char

/-- What the external world returned on this call: the result of
`SeleniumURLLoader([url]).load()`, of `trafilatura.fetch_url(url)`, of
`trafilatura.extract(downloaded, ...)`, and of `WebBaseLoader(url).load()`.
`Except.error` on a loader models a raised network exception there;
`none` on the trafilatura steps models `None` (or a raised-and-caught
exception, indistinguishable inside the `try` block). -/
structure ExtractEnv where
  selenium : Except (List Char) (List PageDoc)
  trafFetched : Option (List Char)
  trafExtracted : Option (List Char)
  webBase : Except (List Char) (List PageDoc)

/-- The normalized article dict returned by `load_clean_article`. -/
structure Article where
  title : List Char
  date : JVal
  text : List Char
  url : List Char

/-- The special-domain branch (and, identically, the WebBaseLoader
fallback branch): take the first document, require non-blank page content,
return stripped title and text. -/
def loaderPath (docs : Except (List Char) (List PageDoc)) (url : List Char) :
    Except (List Char) Article :=
  match docs with
  | .error e => .error e
  | .ok [] => .error ("无法加载页面内容").data
  | .ok (page :: _) =>
    if pyStrip page.page_content = [] then .error ("页面内容为空").data
    else
      match pyOrEmptyStrip page.metaTitle with
      | none => .error ("AttributeError").data
      | some title => .ok ⟨title, .jstr [], pyStrip page.page_content, url⟩

/-- The trafilatura branch: needs a truthy download, a truthy extraction
result, a decodable JSON object with string-ish title/text, and non-blank
text; any failure (including a raised-and-caught exception) yields `none`
and control falls through to the WebBaseLoader branch. -/
def trafPath (fetched extracted : Option (List Char)) (url : List Char) :
    Option Article :=
  match fetched with
  | none => none
  | some d =>
    if d = [] then none
    else
      match extracted with
      | none => none
      | some j =>
        if j = [] then none
        else
          match json_loads j with
          | none => none
          | some (JVal.jobj fs) =>
            match pyOrEmptyStrip (lookupLast fs ("title").data),
                  pyOrEmptyStrip (lookupLast fs ("text").data) with
            | some title, some text =>
              if text = [] then none
              else some ⟨title, pyOrEmpty (lookupLast fs ("date").data), text, url⟩
            | _, _ => none
          | some _ => none

/-- Shared body of the two `load_clean_article` variants, parameterized by
the file's `special_domains` list: a URL containing any listed substring
goes straight to the Selenium loader; otherwise trafilatura is tried first
and the WebBaseLoader is the fallback. -/
def load_clean_article_with (special_domains : List (List Char)) (env : ExtractEnv)
    (url : List Char) : Except (List Char) Article :=
  if special_domains.any (fun d => decide (d <:+: url)) then
    loaderPath env.selenium url
  else
    match trafPath env.trafFetched env.trafExtracted url with
    | some a => .ok a
    | none => loaderPath env.webBase url

namespace Summarizer

/-- The `special_domains` list of `app/summarizer.py` (lines 35-37). -/
def special_domains : List (List Char) :=
  [ ("juejin.cn").data, ("163.com").data, ("guokr.com").data, ("baidu.com").data,
    ("smzdm.com").data, ("nmc.cn").data, ("52pojie.cn").data, ("toutiao.com").data,
    ("sspai.com").data, ("sina.com.cn").data, ("hupu.com").data, ("51cto.com").data,
    ("ithome.com").data, ("news.qq.com").data, ("nodeseek.com").data,
    ("thepaper.cn").data, ("hellogithub.com").data, ("miyoushe.com").data ]

/-- `load_clean_article` of `app/summarizer.py` (lines 28-77). -/
def load_clean_article (env : ExtractEnv) (url : List Char) :
    Except (List Char) Article :=
  load_clean_article_with special_domains env url

end Summarizer

namespace WebApi

/-- The `special_domains` list of `app/web_summarizer_api.py` (line 72). -/
def special_domains : List (List Char) :=
  [ ("juejin.cn").data, ("163.com").data ]

/-- `load_clean_article` of `app/web_summarizer_api.py` (lines 65-112). -/
def load_clean_article (env : ExtractEnv) (url : List Char) :
    Except (List Char) Article :=
  load_clean_article_with special_domains env url

end WebApi

/-! ### Properties of `pyStrip` and the extraction invariants -/

theorem dropWhile_idem (p : Char → Bool) (l : List Char) :
    (l.dropWhile p).dropWhile p = l.dropWhile p := by
  induction l with
  | nil => rfl
  | cons c t ih =>
    by_cases hc : p c = true
    · simp [List.dropWhile_cons, hc, ih]
    · have hc' : p c = false := by revert hc; cases p c <;> simp
      simp [List.dropWhile_cons, hc']

theorem dropWhile_head_not (p : Char → Bool) (l : List Char) {c : Char} {t : List Char}
    (h : l.dropWhile p = c :: t) : p c = false := by
  induction l with
  | nil => cases h
  | cons a r ih =>
    by_cases ha : p a = true
    · rw [List.dropWhile_cons, if_pos ha] at h
      exact ih h
    · have ha' : p a = false := by revert ha; cases p a <;> simp
      rw [List.dropWhile_cons, ha'] at h
      simp only [Bool.false_eq_true, if_false] at h
      cases h
      exact ha'

theorem pyStrip_head_not (m : List Char) {c : Char} {t : List Char}
    (h : pyStrip m = c :: t) : pyWS c = false := by
  have hh : (pyStrip m).head? = some c := by rw [h]; rfl
  unfold pyStrip at hh
  rw [List.head?_reverse] at hh
  have hsuf : (m.dropWhile pyWS).reverse.dropWhile pyWS <:+ (m.dropWhile pyWS).reverse :=
    List.dropWhile_suffix pyWS
  obtain ⟨w, hw⟩ := hsuf
  have hne : (m.dropWhile pyWS).reverse.dropWhile pyWS ≠ [] := by
    intro h0
    rw [h0] at hh
    cases hh
  have hlast : ((m.dropWhile pyWS).reverse).getLast? = some c := by
    rw [← hw, List.getLast?_append_of_ne_nil w hne]
    exact hh
  have hhead : (m.dropWhile pyWS).head? = some c := by
    have hrr := List.head?_reverse (m.dropWhile pyWS).reverse
    rw [List.reverse_reverse] at hrr
    rw [hrr]
    exact hlast
  cases hx : m.dropWhile pyWS with
  | nil => rw [hx] at hhead; cases hhead
  | cons a r =>
    rw [hx] at hhead
    have hac : a = c := by simpa using hhead
    subst hac
    exact dropWhile_head_not pyWS m hx

theorem pyStrip_dropWhile (m : List Char) :
    (pyStrip m).dropWhile pyWS = pyStrip m := by
  cases hcr : pyStrip m with
  | nil => rfl
  | cons c t =>
    have hc := pyStrip_head_not m hcr
    rw [List.dropWhile_cons, hc]
    simp

theorem pyStrip_idem (m : List Char) : pyStrip (pyStrip m) = pyStrip m := by
  conv_lhs => rw [pyStrip]
  rw [pyStrip_dropWhile]
  conv_lhs => rw [pyStrip]
  rw [List.reverse_reverse, dropWhile_idem]
  rfl

theorem pyOrEmptyStrip_stripped {v : Option JVal} {s : List Char}
    (h : pyOrEmptyStrip v = some s) : pyStrip s = s := by
  unfold pyOrEmptyStrip at h
  cases v with
  | none =>
    dsimp only at h
    have hs : s = [] := by cases h; rfl
    subst hs
    rfl
  | some w =>
    dsimp only at h
    by_cases ht : jTruthy w = true
    · rw [if_pos ht] at h
      cases w with
      | jstr s' =>
        have hs : s = pyStrip s' := by cases h; rfl
        subst hs
        exact pyStrip_idem s'
      | jnull => cases h
      | jbool b => cases h
      | jnum r => cases h
      | jarr xs => cases h
      | jobj fs => cases h
    · rw [if_neg ht] at h
      have hs : s = [] := by cases h; rfl
      subst hs
      rfl

theorem loaderPath_ok_inv {docs : Except (List Char) (List PageDoc)} {url : List Char}
    {a : Article} (h : loaderPath docs url = .ok a) :
    a.text ≠ [] ∧ pyStrip a.text = a.text ∧ pyStrip a.title = a.title := by
  unfold loaderPath at h
  cases docs with
  | error e => cases h
  | ok ds =>
    cases ds with
    | nil => cases h
    | cons page rest =>
      dsimp only at h
      by_cases hpc : pyStrip page.page_content = []
      · rw [if_pos hpc] at h; cases h
      · rw [if_neg hpc] at h
        cases hts : pyOrEmptyStrip page.metaTitle with
        | none => rw [hts] at h; cases h
        | some title =>
          rw [hts] at h
          cases h
          exact ⟨hpc, pyStrip_idem _, pyOrEmptyStrip_stripped hts⟩

theorem trafPath_ok_inv {f ex : Option (List Char)} {url : List Char} {a : Article}
    (h : trafPath f ex url = some a) :
    a.text ≠ [] ∧ pyStrip a.text = a.text ∧ pyStrip a.title = a.title := by
  unfold trafPath at h
  cases f with
  | none => cases h
  | some d =>
    dsimp only at h
    by_cases hd : d = []
    · rw [if_pos hd] at h; cases h
    · rw [if_neg hd] at h
      cases ex with
      | none => cases h
      | some j =>
        dsimp only at h
        by_cases hj : j = []
        · rw [if_pos hj] at h; cases h
        · rw [if_neg hj] at h
          cases hjl : json_loads j with
          | none => rw [hjl] at h; cases h
          | some jd =>
            rw [hjl] at h
            cases jd with
            | jobj fs =>
              dsimp only at h
              cases ht : pyOrEmptyStrip (lookupLast fs ['t', 'i', 't', 'l', 'e']) with
              | none =>
                rw [ht] at h
                cases hx : pyOrEmptyStrip (lookupLast fs ['t', 'e', 'x', 't']) with
                | none => rw [hx] at h; cases h
                | some text => rw [hx] at h; cases h
              | some title =>
                rw [ht] at h
                cases hx : pyOrEmptyStrip (lookupLast fs ['t', 'e', 'x', 't']) with
                | none => rw [hx] at h; cases h
                | some text =>
                  rw [hx] at h
                  dsimp only at h
                  by_cases htext : text = []
                  · rw [if_pos htext] at h; cases h
                  · rw [if_neg htext] at h
                    cases h
                    exact ⟨htext, pyOrEmptyStrip_stripped hx, pyOrEmptyStrip_stripped ht⟩
            | jnull => cases h
            | jbool b => cases h
            | jnum r => cases h
            | jstr s => cases h
            | jarr xs => cases h

theorem load_clean_article_ok_inv {doms : List (List Char)} {env : ExtractEnv}
    {url : List Char} {a : Article}
    (h : load_clean_article_with doms env url = .ok a) :
    a.text ≠ [] ∧ pyStrip a.text = a.text ∧ pyStrip a.title = a.title := by
  unfold load_clean_article_with at h
  by_cases hd : (doms.any (fun d => decide (d <:+: url))) = true
  · rw [if_pos hd] at h
    exact loaderPath_ok_inv h
  · rw [if_neg hd] at h
    cases htp : trafPath env.trafFetched env.trafExtracted url with
    | none => rw [htp] at h; exact loaderPath_ok_inv h
    | some b =>
      rw [htp] at h
      cases h
      exact trafPath_ok_inv htp

/-! ### Model of the `/summarize` orchestrator -/

namespace WebApi

/-- The response model of the endpoint. -/
structure SummaryResponse where
  summary : List Char
  tags : List (List Char)

/-- The fallback summary computed when parsing/validation fails:
`(article["title"] or "摘要解析失败").strip()[:100]`, re-defaulted when
blank. -/
def fallback_summary (title : List Char) : List Char :=
  let s := (pyStrip (if title = [] then ("摘要解析失败").data else title)).take 100
  if s = [] then ("摘要解析失败").data else s

/-- The fallback tag pair. -/
def fallback_tags : List (List Char) := [("解析失败").data, ("回退").data]

/-- `summarize_url` of `app/web_summarizer_api.py` (lines 196-228).  `env`
describes the loaders' outcomes and `llm` the backend's response to the
prompt content (the exception it raises, or the raw text it returns).  An
`Except.error` is what the outer handler turns into an HTTP 500 whose
detail is that message; `Except.ok` is the 200 response body. -/
def summarize_url (env : ExtractEnv)
    (llm : List Char → Except (List Char) (List Char)) (url : List Char) :
    Except (List Char) SummaryResponse :=
  match load_clean_article env url with
  | .error e => .error e
  | .ok article =>
    match llm (clamp_text (article.title ++ ("\n\n").data ++ article.text)) with
    | .error e => .error e
    | .ok raw =>
      match parse_json_safely raw with
      | some parsed => .ok ⟨parsed.summary, parsed.tags⟩
      | none => .ok ⟨fallback_summary article.title, fallback_tags⟩

end WebApi

/-! ### Clamp length lemmas and the clamp claims -/

theorem normalize_replicate (n : Nat) :
    normalize_trailing_ws (List.replicate n 'a') = List.replicate n 'a' := by
  induction n with
  | zero => rfl
  | succ k ih =>
    rw [List.replicate_succ]
    simp only [normalize_trailing_ws]
    rw [ih]
    rw [if_neg (fun hand => by rcases hand.1 with h1 | h1 <;> exact absurd h1 (by decide))]

theorem clamp_text_length_else (t : List Char) (mc : Nat)
    (h : ¬ (normalize_trailing_ws t).length ≤ mc) :
    (Summarizer.clamp_text t mc).length =
      min 2000 (normalize_trailing_ws t).length + 4 +
        min (normalize_trailing_ws t).length 1000 := by
  simp only [Summarizer.clamp_text]
  rw [if_neg h]
  have hsep : (("\n……\n").data).length = 4 := rfl
  rw [List.length_append, List.length_append, List.length_take, List.length_drop, hsep]
  omega

/-- Claim C3: with the default budget 4000, `clamp_text` first collapses
every run of spaces/tabs immediately preceding a newline across the whole
input (the declarative `normSpec` form), returns the normalized text
unchanged when its length is at most 4000, and otherwise returns exactly
the first 2000 normalized characters, the separator line holding only the
ellipsis marker, and the last 1000 normalized characters. -/
theorem c3_clamp_default_shape :
    ∀ t : List Char,
      normalize_trailing_ws t = normSpec t ∧
      ((normSpec t).length ≤ 4000 → Summarizer.clamp_text t 4000 = normSpec t) ∧
      (4000 < (normSpec t).length →
        Summarizer.clamp_text t 4000 =
          (normSpec t).take 2000 ++ ("\n……\n").data ++
            (normSpec t).drop ((normSpec t).length - 1000)) := by
  intro t
  refine ⟨normalize_eq_normSpec t, ?_, ?_⟩
  · intro hle
    simp only [Summarizer.clamp_text]
    rw [normalize_eq_normSpec t, if_pos hle]
  · intro hgt
    simp only [Summarizer.clamp_text]
    rw [normalize_eq_normSpec t, if_neg (by omega)]

theorem c3_witness :
    Summarizer.clamp_text (("ab \t\ncd ").data) 4000 = ("ab\ncd ").data ∧
    Summarizer.clamp_text (List.replicate 4001 'a') 4000 =
      (List.replicate 4001 'a').take 2000 ++ ("\n……\n").data ++
        (List.replicate 4001 'a').drop 3001 := by
  constructor
  · exact ((c3_clamp_default_shape (("ab \t\ncd ").data)).2.1 (by decide)).trans (by decide)
  · have hns : normSpec (List.replicate 4001 'a') = List.replicate 4001 'a' :=
      (normalize_eq_normSpec _).symm.trans (normalize_replicate 4001)
    have h := (c3_clamp_default_shape (List.replicate 4001 'a')).2.2
    rw [hns] at h
    have h2 := h (by rw [List.length_replicate]; omega)
    rw [h2, List.length_replicate]

/-- Claim C6 (amended): for every text whose normalized length exceeds
4000, the length of `clamp_text text 4000` is 3000 plus the length of the
whole separator (newline, two ellipsis characters, newline), i.e. 3004 —
independent of the input length.  The claimed value
"2003 + length of the separator marker" is wrong for either reading of
"marker". -/
theorem c6_clamp_long_length (t : List Char)
    (h : 4000 < (normalize_trailing_ws t).length) :
    (Summarizer.clamp_text t 4000).length = 3000 + (("\n……\n").data).length ∧
    (Summarizer.clamp_text t 4000).length = 3004 := by
  have hlen := clamp_text_length_else t 4000 (by omega)
  have hsep : (("\n……\n").data).length = 4 := rfl
  constructor <;> omega

/-- Claim C6, counterexample: a text of 4001 characters (normalization is
the identity on it) produces a clamp of length 3004, which differs from
2003 plus the separator-marker length whether the marker is read as the
two-character ellipsis "……" or as the full four-character separator line. -/
theorem c6_counterexample :
    4000 < (normalize_trailing_ws (List.replicate 4001 'a')).length ∧
    (Summarizer.clamp_text (List.replicate 4001 'a') 4000).length = 3004 ∧
    (Summarizer.clamp_text (List.replicate 4001 'a') 4000).length ≠
      2003 + (("……").data).length ∧
    (Summarizer.clamp_text (List.replicate 4001 'a') 4000).length ≠
      2003 + (("\n……\n").data).length := by
  have hn := normalize_replicate 4001
  have hlen : 4000 < (normalize_trailing_ws (List.replicate 4001 'a')).length := by
    rw [hn, List.length_replicate]; omega
  have hlong := clamp_text_length_else (List.replicate 4001 'a') 4000 (by omega)
  rw [hn] at hlong
  simp only [List.length_replicate] at hlong
  have h34 : (Summarizer.clamp_text (List.replicate 4001 'a') 4000).length = 3004 := by
    omega
  refine ⟨hlen, h34, ?_, ?_⟩
  · rw [h34]; decide
  · rw [h34]; decide

theorem c6_witness :
    (Summarizer.clamp_text (List.replicate 4001 'a') 4000).length = 3004 :=
  (c6_clamp_long_length (List.replicate 4001 'a')
    (by rw [normalize_replicate, List.length_replicate]; omega)).2

/-- Claim C9: the default budget 4000 is a true length bound
(`clamp_text t 4000` never exceeds 4000 characters), but any budget below
3004 is not: every text whose normalized length is at least 3000 and
exceeds the budget is clamped to exactly 3004 characters, above the
budget; in particular such a text exists for every budget below 3004. -/
theorem c9_clamp_budget_bound :
    (∀ t : List Char, (Summarizer.clamp_text t 4000).length ≤ 4000) ∧
    (∀ (mc : Nat) (t : List Char), mc < 3004 →
      3000 ≤ (normalize_trailing_ws t).length →
      mc < (normalize_trailing_ws t).length →
      (Summarizer.clamp_text t mc).length = 3004 ∧
        mc < (Summarizer.clamp_text t mc).length) ∧
    (∀ mc : Nat, mc < 3004 →
      ∃ t : List Char, (Summarizer.clamp_text t mc).length = 3004 ∧
        mc < (Summarizer.clamp_text t mc).length) := by
  have hpart2 : ∀ (mc : Nat) (t : List Char), mc < 3004 →
      3000 ≤ (normalize_trailing_ws t).length →
      mc < (normalize_trailing_ws t).length →
      (Summarizer.clamp_text t mc).length = 3004 ∧
        mc < (Summarizer.clamp_text t mc).length := by
    intro mc t hmc h3k hgt
    have hlen := clamp_text_length_else t mc (by omega)
    constructor <;> omega
  refine ⟨?_, hpart2, ?_⟩
  · intro t
    by_cases hL : (normalize_trailing_ws t).length ≤ 4000
    · simp only [Summarizer.clamp_text]
      rw [if_pos hL]
      exact hL
    · have := clamp_text_length_else t 4000 hL
      omega
  · intro mc hmc
    refine ⟨List.replicate 3004 'a', hpart2 mc (List.replicate 3004 'a') hmc ?_ ?_⟩
    · rw [normalize_replicate, List.length_replicate]; omega
    · rw [normalize_replicate, List.length_replicate]; omega

theorem c9_witness :
    (Summarizer.clamp_text (List.replicate 5000 'a') 4000).length ≤ 4000 ∧
    (Summarizer.clamp_text (List.replicate 3100 'a') 100).length = 3004 := by
  refine ⟨c9_clamp_budget_bound.1 _,
    (c9_clamp_budget_bound.2.1 100 (List.replicate 3100 'a') (by norm_num) ?_ ?_).1⟩
  · rw [normalize_replicate, List.length_replicate]; omega
  · rw [normalize_replicate, List.length_replicate]; omega

/-- Claim C10: the `clamp_text` of `app/summarizer.py` and the `clamp_text`
of `app/web_summarizer_api.py` are extensionally equal — for every input
text and every budget they return the identical string (the two source
bodies are character-for-character identical). -/
theorem c10_clamp_variants_equal :
    ∀ (t : List Char) (mc : Nat), Summarizer.clamp_text t mc = WebApi.clamp_text t mc :=
  fun _ _ => rfl

/-! ### Domain policy and extraction claims -/

/-- Claim C5: the heavy-fetch (Selenium) strategy is taken directly, with
the lightweight strategies skipped entirely, exactly when the URL contains
a substring from the special-domain list; the decision is a pure function
of the URL (stated as the substring-membership characterization, and as
independence of the result from every loader outcome other than the
Selenium one); for a URL containing no listed substring the trafilatura
(lightweight) strategy is attempted first and decides the result whenever
it succeeds, with the WebBaseLoader used only as its fallback. -/
theorem c5_domain_policy :
    ∀ (doms : List (List Char)) (url : List Char) (env env' : ExtractEnv),
      ((doms.any (fun d => decide (d <:+: url))) = true ↔ ∃ d ∈ doms, d <:+: url) ∧
      ((doms.any (fun d => decide (d <:+: url))) = true →
        load_clean_article_with doms env url = loaderPath env.selenium url) ∧
      ((doms.any (fun d => decide (d <:+: url))) = true → env.selenium = env'.selenium →
        load_clean_article_with doms env url = load_clean_article_with doms env' url) ∧
      ((doms.any (fun d => decide (d <:+: url))) = false →
        ∀ a, trafPath env.trafFetched env.trafExtracted url = some a →
          load_clean_article_with doms env url = .ok a) ∧
      ((doms.any (fun d => decide (d <:+: url))) = false →
        trafPath env.trafFetched env.trafExtracted url = none →
        load_clean_article_with doms env url = loaderPath env.webBase url) := by
  intro doms url env env'
  refine ⟨?_, ?_, ?_, ?_, ?_⟩
  · simp [List.any_eq_true]
  · intro h
    unfold load_clean_article_with
    rw [if_pos h]
  · intro h hsel
    unfold load_clean_article_with
    rw [if_pos h, if_pos h, hsel]
  · intro h a htp
    unfold load_clean_article_with
    rw [if_neg (fun hc => by rw [h] at hc; cases hc), htp]
  · intro h htp
    unfold load_clean_article_with
    rw [if_neg (fun hc => by rw [h] at hc; cases hc), htp]

/-- Loader outcome used only by the C5 witness. -/
def c5Env : ExtractEnv :=
  ⟨.ok [⟨some (.jstr (("Demo Title").data)), ("Demo body text").data⟩],
   none, none, .error ("unused").data⟩

theorem c5_witness :
    load_clean_article_with Summarizer.special_domains c5Env
        (("https://juejin.cn/post/1").data) =
      loaderPath c5Env.selenium (("https://juejin.cn/post/1").data) ∧
    load_clean_article_with WebApi.special_domains c5Env
        (("https://example.com/x").data) =
      loaderPath c5Env.webBase (("https://example.com/x").data) := by
  constructor
  · exact (c5_domain_policy Summarizer.special_domains
      (("https://juejin.cn/post/1").data) c5Env c5Env).2.1 (by decide)
  · exact (c5_domain_policy WebApi.special_domains
      (("https://example.com/x").data) c5Env c5Env).2.2.2.2 (by decide) rfl

/-- Claim C7: `load_clean_article` never hands an article with blank body
text to the rest of the pipeline — every successful extraction has
non-empty text (also after trimming), and otherwise the call fails with an
extraction error. -/
theorem c7_extract_nonempty_text :
    ∀ (doms : List (List Char)) (env : ExtractEnv) (url : List Char),
      (∀ a : Article, load_clean_article_with doms env url = .ok a →
        a.text ≠ [] ∧ pyStrip a.text ≠ []) ∧
      ((∃ a, load_clean_article_with doms env url = .ok a ∧ pyStrip a.text ≠ []) ∨
        (∃ e, load_clean_article_with doms env url = .error e)) := by
  intro doms env url
  constructor
  · intro a h
    obtain ⟨hne, hstr, _⟩ := load_clean_article_ok_inv h
    exact ⟨hne, by rw [hstr]; exact hne⟩
  · cases hl : load_clean_article_with doms env url with
    | error e => exact Or.inr ⟨e, rfl⟩
    | ok a =>
      obtain ⟨hne, hstr, _⟩ := load_clean_article_ok_inv hl
      exact Or.inl ⟨a, rfl, by rw [hstr]; exact hne⟩

/-- Loader outcome used only by the C7 witness: trafilatura succeeds. -/
def c7Env : ExtractEnv :=
  ⟨.error ("unused").data, some (("<html>").data),
   some (("\x7b\"title\":\"T\",\"text\":\"body\"\x7d").data),
   .error ("unused").data⟩

/-- The article the C7 witness environment extracts. -/
def c7Article : Article :=
  ⟨("T").data, .jstr [], ("body").data, ("https://example.com/a").data⟩

theorem c7_witness : c7Article.text ≠ [] ∧ pyStrip c7Article.text ≠ [] :=
  (c7_extract_nonempty_text WebApi.special_domains c7Env
    (("https://example.com/a").data)).1 c7Article rfl

/-! ### Fallback and orchestrator claims -/

theorem fallback_summary_spec (title : List Char) (hstr : pyStrip title = title) :
    WebApi.fallback_summary title ≠ [] ∧
    (title ≠ [] → WebApi.fallback_summary title = title.take 100) ∧
    (title = [] → WebApi.fallback_summary title = ("摘要解析失败").data) := by
  by_cases ht : title = []
  · subst ht
    refine ⟨by decide, fun h => absurd rfl h, fun _ => by decide⟩
  · have htake : title.take 100 ≠ [] := by
      intro h0
      rcases List.take_eq_nil_iff.mp h0 with h1 | h1
      · exact absurd h1 (by decide)
      · exact ht h1
    have hs : WebApi.fallback_summary title = title.take 100 := by
      unfold WebApi.fallback_summary
      dsimp only
      rw [if_neg ht, hstr, if_neg htake]
    refine ⟨?_, fun _ => hs, fun h => absurd h ht⟩
    rw [hs]
    exact htake

/-- Claim C1: whenever extraction succeeded and the backend returned raw
output on which payload parsing or validation fails (no JSON object found,
JSON decode failure, or schema violation — exactly the cases in which
`parse_json_safely` yields nothing), the endpoint still returns a
response, never an error: its tags are the fixed two-element fallback
pair, and its summary is the extracted title truncated to 100 characters
(or the fixed non-empty failure literal when the title is empty after
trimming), hence always non-empty. -/
theorem c1_fallback_totality :
    ∀ (env : ExtractEnv) (llm : List Char → Except (List Char) (List Char))
      (url : List Char) (a : Article) (raw : List Char),
      WebApi.load_clean_article env url = .ok a →
      llm (WebApi.clamp_text (a.title ++ ("\n\n").data ++ a.text)) = .ok raw →
      WebApi.parse_json_safely raw = none →
      WebApi.summarize_url env llm url =
        .ok ⟨WebApi.fallback_summary a.title, WebApi.fallback_tags⟩ ∧
      WebApi.fallback_tags.length = 2 ∧
      WebApi.fallback_summary a.title ≠ [] ∧
      (a.title ≠ [] → WebApi.fallback_summary a.title = a.title.take 100) ∧
      (a.title = [] → WebApi.fallback_summary a.title = ("摘要解析失败").data) := by
  intro env llm url a raw hload hllm hparse
  have hinv := load_clean_article_ok_inv hload
  have hfb := fallback_summary_spec a.title hinv.2.2
  have hmain : WebApi.summarize_url env llm url =
      .ok ⟨WebApi.fallback_summary a.title, WebApi.fallback_tags⟩ := by
    unfold WebApi.summarize_url
    rw [hload]
    dsimp only
    rw [hllm]
    dsimp only
    rw [hparse]
  exact ⟨hmain, rfl, hfb.1, hfb.2.1, hfb.2.2⟩

/-- Loader outcome used only by the C1 witness: trafilatura succeeds. -/
def c1Env : ExtractEnv :=
  ⟨.error ("unused").data, some (("<html>").data),
   some (("\x7b\"title\":\"Some Title\",\"text\":\"Body text.\"\x7d").data),
   .error ("unused").data⟩

/-- Backend outcome used only by the C1 witness: unparseable raw output. -/
def c1Llm : List Char → Except (List Char) (List Char) :=
  fun _ => .ok (("no json here").data)

theorem c1_witness :
    WebApi.summarize_url c1Env c1Llm (("https://example.com/a").data) =
      .ok ⟨("Some Title").data, WebApi.fallback_tags⟩ ∧
    WebApi.fallback_tags.length = 2 := by
  have h := c1_fallback_totality c1Env c1Llm (("https://example.com/a").data)
    ⟨("Some Title").data, .jstr [], ("Body text.").data, ("https://example.com/a").data⟩
    (("no json here").data) rfl rfl rfl
  refine ⟨?_, h.2.1⟩
  rw [h.1, h.2.2.2.1 (by decide)]
  rfl

/-- Loader outcome used only by the C4 theorems: trafilatura succeeds. -/
def c4Env : ExtractEnv :=
  ⟨.error ("unused").data, some (("<html>").data),
   some (("\x7b\"title\":\"Some Title\",\"text\":\"Body text.\"\x7d").data),
   .error ("unused").data⟩

/-- The article the C4 environment extracts. -/
def c4Article : Article :=
  ⟨("Some Title").data, .jstr [], ("Body text.").data, ("https://example.com/a").data⟩

/-- Backend outcome used only by the C4 counterexample: the generative
call itself raises (backend unreachable). -/
def c4Llm : List Char → Except (List Char) (List Char) :=
  fun _ => .error (("backend unreachable").data)

/-- Backend outcome used only by the C4 witness: the call returns text. -/
def c4OkLlm : List Char → Except (List Char) (List Char) :=
  fun _ => .ok (("whatever").data)

/-- Loader outcome used only by the C4 witness: every strategy fails
(WebBaseLoader returns no documents), so extraction raises. -/
def c4FailEnv : ExtractEnv :=
  ⟨.error ("unused").data, none, none, .ok []⟩

/-- Claim C4, counterexample: extraction succeeds, yet when the backend
invocation itself fails the call surfaces that failure to the caller
instead of absorbing it into the fallback result — so `summarize` can
fail with an error that is not the extraction failure, contradicting the
claim that every post-extraction failure is absorbed. -/
theorem c4_counterexample :
    WebApi.load_clean_article c4Env (("https://example.com/a").data) = .ok c4Article ∧
    WebApi.summarize_url c4Env c4Llm (("https://example.com/a").data) =
      .error (("backend unreachable").data) :=
  ⟨rfl, rfl⟩

/-- Claim C4 (amended): `summarize_url` can fail only with the extraction
failure or with a failure of the backend invocation itself; once the
backend has returned raw output, every downstream failure (payload
parsing or validation) is absorbed and a response is returned. -/
theorem c4_error_sources :
    ∀ (env : ExtractEnv) (llm : List Char → Except (List Char) (List Char))
      (url : List Char),
      (∀ e, WebApi.summarize_url env llm url = .error e →
        WebApi.load_clean_article env url = .error e ∨
        ∃ a, WebApi.load_clean_article env url = .ok a ∧
          llm (WebApi.clamp_text (a.title ++ ("\n\n").data ++ a.text)) = .error e) ∧
      (∀ a raw, WebApi.load_clean_article env url = .ok a →
        llm (WebApi.clamp_text (a.title ++ ("\n\n").data ++ a.text)) = .ok raw →
        ∃ r, WebApi.summarize_url env llm url = .ok r) := by
  intro env llm url
  constructor
  · intro e he
    unfold WebApi.summarize_url at he
    cases hl : WebApi.load_clean_article env url with
    | error e2 =>
      rw [hl] at he
      dsimp only at he
      cases he
      exact Or.inl rfl
    | ok a =>
      rw [hl] at he
      dsimp only at he
      cases hm : llm (WebApi.clamp_text (a.title ++ ("\n\n").data ++ a.text)) with
      | error e2 =>
        rw [hm] at he
        dsimp only at he
        cases he
        exact Or.inr ⟨a, rfl, hm⟩
      | ok raw =>
        rw [hm] at he
        dsimp only at he
        cases hp : WebApi.parse_json_safely raw with
        | some out => rw [hp] at he; cases he
        | none => rw [hp] at he; cases he
  · intro a raw hl hm
    unfold WebApi.summarize_url
    rw [hl]
    dsimp only
    rw [hm]
    dsimp only
    cases hp : WebApi.parse_json_safely raw with
    | some out => exact ⟨_, rfl⟩
    | none => exact ⟨_, rfl⟩

theorem c4_witness :
    (WebApi.load_clean_article c4FailEnv (("https://example.com/a").data) =
        .error (("无法加载页面内容").data) ∨
      ∃ a, WebApi.load_clean_article c4FailEnv (("https://example.com/a").data) = .ok a ∧
        c4Llm (WebApi.clamp_text (a.title ++ ("\n\n").data ++ a.text)) =
          .error (("无法加载页面内容").data)) ∧
    (∃ r, WebApi.summarize_url c4Env c4OkLlm (("https://example.com/a").data) = .ok r) := by
  constructor
  · exact (c4_error_sources c4FailEnv c4Llm (("https://example.com/a").data)).1
      (("无法加载页面内容").data) rfl
  · exact (c4_error_sources c4Env c4OkLlm (("https://example.com/a").data)).2
      c4Article (("whatever").data) rfl rfl

/-! ### Parser and validator claims -/

/-- The payload that both C8 inputs parse to. -/
def c8Payload : JVal :=
  .jobj [(("summary").data, .jstr (("x").data)),
         (("tags").data, .jarr [.jstr (("a").data)])]

/-- Claim C8: wrapping the JSON object payload in a leading json-tagged
fence line and a trailing fence line does not change the result of
parsing — both inputs parse successfully and to the same payload. -/
theorem c8_fence_invariance :
    Summarizer.parse_json_safely
        (("\x60\x60\x60json\n\x7b\"summary\":\"x\",\"tags\":[\"a\"]\x7d\n\x60\x60\x60").data) =
      some c8Payload ∧
    Summarizer.parse_json_safely (("\x7b\"summary\":\"x\",\"tags\":[\"a\"]\x7d").data) =
      some c8Payload :=
  ⟨rfl, rfl⟩

theorem asStrings_map (ts : List (List Char)) : asStrings (ts.map JVal.jstr) = some ts := by
  induction ts with
  | nil => rfl
  | cons a t ih => simp [asStrings, ih]

theorem asStrings_eq_some (xs : List JVal) (ts : List (List Char))
    (h : asStrings xs = some ts) : xs = ts.map JVal.jstr := by
  induction xs generalizing ts with
  | nil =>
    cases h
    rfl
  | cons v r ih =>
    cases v with
    | jstr s =>
      simp only [asStrings] at h
      cases hr : asStrings r with
      | none => rw [hr] at h; cases h
      | some ts2 =>
        rw [hr] at h
        simp only [Option.map_some'] at h
        cases h
        simp [ih ts2 hr]
    | jnull => simp [asStrings] at h
    | jbool b => simp [asStrings] at h
    | jnum n => simp [asStrings] at h
    | jarr ys => simp [asStrings] at h
    | jobj gs => simp [asStrings] at h


set_option maxRecDepth 16384 in
/-- Claim C2: `SummOut(**payload)` fails exactly when `summary` is missing,
not a string, or of length outside 40..500, or `tags` is missing, not a
sequence of strings, or of count outside 3..8; on success the payload
fields are returned verbatim.  The boundary instances: summary of length
exactly 40 with exactly 3 tags passes, length 39 or 2 tags fails, length
500 passes and 501 fails. -/
theorem c2_summout_validator :
    (∀ fs : List (List Char × JVal),
      SummOut.model_validate (.jobj fs) = none ↔
        (¬ ∃ s : List Char, lookupLast fs (("summary").data) = some (.jstr s) ∧
            40 ≤ s.length ∧ s.length ≤ 500) ∨
        (¬ ∃ ts : List (List Char),
            lookupLast fs (("tags").data) = some (.jarr (ts.map JVal.jstr)) ∧
            3 ≤ ts.length ∧ ts.length ≤ 8)) ∧
    (∀ (fs : List (List Char × JVal)) (out : SummOut),
      SummOut.model_validate (.jobj fs) = some out →
        lookupLast fs (("summary").data) = some (.jstr out.summary) ∧
        40 ≤ out.summary.length ∧ out.summary.length ≤ 500 ∧
        lookupLast fs (("tags").data) = some (.jarr (out.tags.map JVal.jstr)) ∧
        3 ≤ out.tags.length ∧ out.tags.length ≤ 8) ∧
    SummOut.model_validate (.jobj
        [(("summary").data, .jstr (List.replicate 40 'a')),
         (("tags").data, .jarr [.jstr ['a'], .jstr ['b'], .jstr ['c']])]) =
      some ⟨List.replicate 40 'a', [['a'], ['b'], ['c']]⟩ ∧
    SummOut.model_validate (.jobj
        [(("summary").data, .jstr (List.replicate 39 'a')),
         (("tags").data, .jarr [.jstr ['a'], .jstr ['b'], .jstr ['c']])]) = none ∧
    SummOut.model_validate (.jobj
        [(("summary").data, .jstr (List.replicate 40 'a')),
         (("tags").data, .jarr [.jstr ['a'], .jstr ['b']])]) = none ∧
    SummOut.model_validate (.jobj
        [(("summary").data, .jstr (List.replicate 500 'a')),
         (("tags").data, .jarr [.jstr ['a'], .jstr ['b'], .jstr ['c']])]) =
      some ⟨List.replicate 500 'a', [['a'], ['b'], ['c']]⟩ ∧
    SummOut.model_validate (.jobj
        [(("summary").data, .jstr (List.replicate 501 'a')),
         (("tags").data, .jarr [.jstr ['a'], .jstr ['b'], .jstr ['c']])]) = none := by
  have hsum : ("summary").data = ['s', 'u', 'm', 'm', 'a', 'r', 'y'] := rfl
  have htag : ("tags").data = ['t', 'a', 'g', 's'] := rfl
  refine ⟨?_, ?_, rfl, rfl, rfl, rfl, rfl⟩
  · intro fs
    unfold SummOut.model_validate
    rw [hsum, htag]
    dsimp only
    cases hs : lookupLast fs ['s', 'u', 'm', 'm', 'a', 'r', 'y'] with
    | none =>
      constructor
      · intro _
        left
        rintro ⟨s, hseq, _, _⟩
        simp at hseq
      · intro _
        rfl
    | some v =>
      cases v with
      | jstr s =>
        cases ht : lookupLast fs ['t', 'a', 'g', 's'] with
        | none =>
          constructor
          · intro _
            right
            rintro ⟨ts, hteq, _, _⟩
            simp at hteq
          · intro _
            rfl
        | some w =>
          cases w with
          | jarr xs =>
            dsimp only
            cases hx : asStrings xs with
            | none =>
              constructor
              · intro _
                right
                rintro ⟨ts, hteq, _, _⟩
                simp only [Option.some.injEq, JVal.jarr.injEq] at hteq
                rw [hteq, asStrings_map] at hx
                cases hx
              · intro _
                rfl
            | some ts =>
              dsimp only
              by_cases hcond : 40 ≤ s.length ∧ s.length ≤ 500 ∧
                  3 ≤ ts.length ∧ ts.length ≤ 8
              · rw [if_pos hcond]
                constructor
                · intro h0
                  cases h0
                · rintro (hbad | hbad)
                  · exact absurd ⟨s, rfl, hcond.1, hcond.2.1⟩ hbad
                  · exact absurd ⟨ts, by rw [asStrings_eq_some xs ts hx],
                      hcond.2.2.1, hcond.2.2.2⟩ hbad
              · rw [if_neg hcond]
                constructor
                · intro _
                  by_cases h40 : 40 ≤ s.length ∧ s.length ≤ 500
                  · right
                    rintro ⟨ts2, hteq, h3, h8⟩
                    simp only [Option.some.injEq, JVal.jarr.injEq] at hteq
                    rw [hteq, asStrings_map] at hx
                    cases hx
                    exact hcond ⟨h40.1, h40.2, h3, h8⟩
                  · left
                    rintro ⟨s2, hseq, hb1, hb2⟩
                    simp only [Option.some.injEq, JVal.jstr.injEq] at hseq
                    rw [← hseq] at hb1 hb2
                    exact h40 ⟨hb1, hb2⟩
                · intro _
                  rfl
          | jnull =>
            constructor
            · intro _
              right
              rintro ⟨ts, hteq, _, _⟩
              simp at hteq
            · intro _
              rfl
          | jbool b =>
            constructor
            · intro _
              right
              rintro ⟨ts, hteq, _, _⟩
              simp at hteq
            · intro _
              rfl
          | jnum n =>
            constructor
            · intro _
              right
              rintro ⟨ts, hteq, _, _⟩
              simp at hteq
            · intro _
              rfl
          | jstr s2 =>
            constructor
            · intro _
              right
              rintro ⟨ts, hteq, _, _⟩
              simp at hteq
            · intro _
              rfl
          | jobj gs =>
            constructor
            · intro _
              right
              rintro ⟨ts, hteq, _, _⟩
              simp at hteq
            · intro _
              rfl
      | jnull =>
        constructor
        · intro _
          left
          rintro ⟨s, hseq, _, _⟩
          simp at hseq
        · intro _
          rfl
      | jbool b =>
        constructor
        · intro _
          left
          rintro ⟨s, hseq, _, _⟩
          simp at hseq
        · intro _
          rfl
      | jnum n =>
        constructor
        · intro _
          left
          rintro ⟨s, hseq, _, _⟩
          simp at hseq
        · intro _
          rfl
      | jarr ys =>
        constructor
        · intro _
          left
          rintro ⟨s, hseq, _, _⟩
          simp at hseq
        · intro _
          rfl
      | jobj gs =>
        constructor
        · intro _
          left
          rintro ⟨s, hseq, _, _⟩
          simp at hseq
        · intro _
          rfl
  · intro fs out hv
    unfold SummOut.model_validate at hv
    rw [hsum, htag] at hv
    dsimp only at hv
    rw [hsum, htag]
    cases hs : lookupLast fs ['s', 'u', 'm', 'm', 'a', 'r', 'y'] with
    | none => rw [hs] at hv; cases hv
    | some v =>
      rw [hs] at hv
      cases v with
      | jstr s =>
        cases ht : lookupLast fs ['t', 'a', 'g', 's'] with
        | none => rw [ht] at hv; dsimp only at hv; cases hv
        | some w =>
          rw [ht] at hv
          cases w with
          | jarr xs =>
            dsimp only at hv
            cases hx : asStrings xs with
            | none => rw [hx] at hv; cases hv
            | some ts =>
              rw [hx] at hv
              dsimp only at hv
              by_cases hcond : 40 ≤ s.length ∧ s.length ≤ 500 ∧
                  3 ≤ ts.length ∧ ts.length ≤ 8
              · rw [if_pos hcond] at hv
                cases hv
                exact ⟨rfl, hcond.1, hcond.2.1,
                  by rw [asStrings_eq_some xs ts hx],
                  hcond.2.2.1, hcond.2.2.2⟩
              · rw [if_neg hcond] at hv
                cases hv
          | jnull => dsimp only at hv; cases hv
          | jbool b => dsimp only at hv; cases hv
          | jnum n => dsimp only at hv; cases hv
          | jstr s2 => dsimp only at hv; cases hv
          | jobj gs => dsimp only at hv; cases hv
      | jnull => dsimp only at hv; cases hv
      | jbool b => dsimp only at hv; cases hv
      | jnum n => dsimp only at hv; cases hv
      | jarr ys => dsimp only at hv; cases hv
      | jobj gs => dsimp only at hv; cases hv

theorem c2_witness :
    lookupLast
        [(("summary").data, JVal.jstr (List.replicate 40 'a')),
         (("tags").data, JVal.jarr [.jstr ['a'], .jstr ['b'], .jstr ['c']])]
        (("summary").data) = some (.jstr (List.replicate 40 'a')) ∧
    3 ≤ ([['a'], ['b'], ['c']] : List (List Char)).length := by
  have h := c2_summout_validator.2.1
    [(("summary").data, JVal.jstr (List.replicate 40 'a')),
     (("tags").data, JVal.jarr [.jstr ['a'], .jstr ['b'], .jstr ['c']])]
    ⟨List.replicate 40 'a', [['a'], ['b'], ['c']]⟩ c2_summout_validator.2.2.1
  exact ⟨h.1, h.2.2.2.2.1⟩
